import Mathlib

/-!
# Verification of the OPTIMADE resource-mapping and field-aliasing engine

Shallow embedding of `src/optimade/server/mappers/entries.py`
(`MetaMapper` / `BaseResourceMapper`): the effective alias table
(`all_aliases`), both directions of field-name lookup
(`get_backend_field`, `get_optimade_field`), the deprecated wrappers
(`alias_for`, `alias_of`), the length-alias table
(`all_length_aliases`, `length_alias_for`) and the document reshaping
transform (`map_back`).

Python `dict`s are modelled as association lists with no duplicate keys;
`dict(pairs)` construction, `d[k] = v`, `del d[k]`, `d.pop(k, None)` and
`d.get(k, default)` are modelled by `pyDict`, `pySet`, `pyDel`, and
`pyGet?` below, reproducing the insertion-order and overwrite semantics
of CPython dicts. Python strings are modelled as Lean `String`s, with
`str.split(".")` and `".".join(...)` modelled by `pySplitDot` and
`pyJoinDot` over the underlying character lists.
-/

namespace Optimade

/-- Values stored in backend documents: `null` (Python `None`), strings,
lists of strings, and nested documents (for the `attributes` sub-mapping
produced by `map_back`). -/
inductive Val where
  | vnull : Val
  | vstr (s : String) : Val
  | vlist (l : List String) : Val
  | vdoc (d : List (String × Val)) : Val

/-- Model of the Python test `value is not None`. -/
def Val.isNull : Val → Bool
  | .vnull => true
  | _ => false

/-- A Python `dict` from field names to values, as an insertion-ordered
association list (keys are unique in any list that models a real dict). -/
abbrev Dict := List (String × Val)

section PyDict

variable {α : Type}

/-- Model of Python `d.get(k)` / `d[k]` on a dict represented as an
association list with unique keys: the first (hence only) binding wins. -/
def pyGet? : List (String × α) → String → Option α
  | [], _ => none
  | kv :: d, k => if kv.1 = k then some kv.2 else pyGet? d k

/-- Model of Python `d[k] = v`: replace the binding in place if the key is
present (CPython keeps the original insertion position), else append. -/
def pySet : List (String × α) → String → α → List (String × α)
  | [], k, v => [(k, v)]
  | kv :: d, k, v => if kv.1 = k then (k, v) :: d else kv :: pySet d k v

/-- Model of Python `del d[k]` / the removal part of `d.pop(k, None)`. -/
def pyDel (d : List (String × α)) (k : String) : List (String × α) :=
  d.filter (fun kv => kv.1 ≠ k)

/-- Model of the Python constructor `dict(pairs)`: insert the pairs in
order into an empty dict, so a later pair with the same key overwrites an
earlier one. -/
def pyDict (l : List (String × α)) : List (String × α) :=
  l.foldl (fun d kv => pySet d kv.1 kv.2) []

/-- Model of Python `dict(pairs).get(k, None)`. -/
def pyDictGet? (l : List (String × α)) (k : String) : Option α :=
  pyGet? (pyDict l) k

end PyDict

section PySplit

/-- Model of Python `s.split(".")` on the character list: splits at every
`'.'`, keeping empty segments, and always returns at least one segment. -/
def splitDot : List Char → List (List Char)
  | [] => [[]]
  | c :: cs =>
    match splitDot cs with
    | [] => [[]]
    | w :: ws => if c = '.' then [] :: w :: ws else (c :: w) :: ws

/-- Model of Python `".".join(segments)` on character lists. -/
def joinDot : List (List Char) → List Char
  | [] => []
  | [w] => w
  | w :: ws => w ++ '.' :: joinDot ws

/-- Python `s.split(".")` for Lean strings. -/
def pySplitDot (s : String) : List String :=
  (splitDot s.data).map (fun w => String.mk w)

/-- Python `".".join(l)` for Lean strings. -/
def pyJoinDot (l : List String) : String :=
  String.mk (joinDot (l.map String.data))

end PySplit

/-!
## The effective alias table and both lookup directions

`MetaMapper.all_aliases` concatenates, in order: provider-field aliases
from the deployment configuration (`CONFIG.provider_fields[ENDPOINT]`),
provider-field aliases declared by the mapper implementation
(`PROVIDER_FIELDS`), deployment-configured explicit aliases
(`CONFIG.aliases[ENDPOINT].items()`), and the implementation-declared
`ALIASES`. Each pair is `(OPTIMADE-compliant name, backend name)`.
-/

/-- Embedding of `MetaMapper.all_aliases`. `configProviderFields` is
`CONFIG.provider_fields.get(cls.ENDPOINT, [])`, `prefix_` is
`CONFIG.provider.prefix`, `PROVIDER_FIELDS` is the class attribute,
`configAliases` is `CONFIG.aliases.get(cls.ENDPOINT, {}).items()` and
`ALIASES` is the class attribute. -/
def all_aliases (configProviderFields : List String) (prefix_ : String)
    (PROVIDER_FIELDS : List String) (configAliases : List (String × String))
    (ALIASES : List (String × String)) : List (String × String) :=
  configProviderFields.map (fun field => ("_" ++ prefix_ ++ "_" ++ field, field))
    ++ PROVIDER_FIELDS.map (fun field => ("_" ++ prefix_ ++ "_" ++ field, field))
    ++ configAliases
    ++ ALIASES

/-- Embedding of `BaseResourceMapper.get_backend_field`: split the input
on `"."`, look the first segment up in `dict(all_aliases())`, and if an
alias is found rejoin it with the remaining segments; otherwise return
the input unchanged. -/
def get_backend_field (aliases : List (String × String))
    (optimade_field : String) : String :=
  let split := pySplitDot optimade_field
  match pyDictGet? aliases (split.headD "") with
  | some aliased =>
      aliased ++ (if split.length > 1 then "." ++ pyJoinDot split.tail else "")
  | none => optimade_field

/-- Embedding of `BaseResourceMapper.get_optimade_field`: build the
reverse map `{backend: optimade for (optimade, backend) in all_aliases()}`
and look the whole input up in it, defaulting to the input itself.
The source performs no dotted-path splitting in this direction. -/
def get_optimade_field (aliases : List (String × String))
    (backend_field : String) : String :=
  (pyDictGet? (aliases.map (fun p => (p.2, p.1))) backend_field).getD backend_field

/-- Embedding of the deprecated `BaseResourceMapper.alias_for`: the
Python method emits a `DeprecationWarning` (a side effect outside this
pure model) and then returns `cls.get_backend_field(field)` unchanged. -/
def alias_for (aliases : List (String × String)) (field : String) : String :=
  get_backend_field aliases field

/-- Embedding of the deprecated `BaseResourceMapper.alias_of`: the Python
method emits a `DeprecationWarning` and then returns
`cls.get_optimade_field(field)` unchanged. -/
def alias_of (aliases : List (String × String)) (field : String) : String :=
  get_optimade_field aliases field

/-!
## Length aliases
-/

/-- Embedding of `BaseResourceMapper.all_length_aliases`:
`cls.LENGTH_ALIASES + tuple(CONFIG.length_aliases.get(cls.ENDPOINT, {}).items())`. -/
def all_length_aliases (LENGTH_ALIASES configLengthAliases : List (String × String)) :
    List (String × String) :=
  LENGTH_ALIASES ++ configLengthAliases

/-- Embedding of `BaseResourceMapper.length_alias_for`:
`dict(cls.all_length_aliases()).get(field, None)`. -/
def length_alias_for (LENGTH_ALIASES configLengthAliases : List (String × String))
    (field : String) : Option String :=
  pyDictGet? (all_length_aliases LENGTH_ALIASES configLengthAliases) field

/-!
## Document reshaping: `map_back`
-/

/-- The fixed top-level field names,
`BaseResourceMapper.TOP_LEVEL_NON_ATTRIBUTES_FIELDS = {"id", "type",
"relationships", "links"}`. The Python value is a `set`; it is modelled
as a list because the reshaping loop over it performs independent
operations on distinct keys, so any iteration order gives the same
result. -/
def TOP_LEVEL_NON_ATTRIBUTES_FIELDS : List String :=
  ["id", "type", "relationships", "links"]

/-- First loop of `map_back`: copy every key of `doc` that does not occur
as a backend name (`real`) in the alias table into a fresh dict. -/
def mbUnaliased (aliases : List (String × String)) (doc : Dict) : Dict :=
  doc.foldl
    (fun newdoc kv =>
      if kv.1 ∈ aliases.map Prod.snd then newdoc else pySet newdoc kv.1 kv.2)
    []

/-- Second loop of `map_back`: for every alias pair `(alias, real)` whose
backend name `real` is a key of `doc`, set `newdoc[alias] = doc[real]`.
Together with `mbUnaliased` this is the working document of `map_back`
just before the `attributes` conflict check. -/
def mbWorking (aliases : List (String × String)) (doc : Dict) : Dict :=
  aliases.foldl
    (fun newdoc p =>
      match pyGet? doc p.2 with
      | some v => pySet newdoc p.1 v
      | none => newdoc)
    (mbUnaliased aliases doc)

/-- Generic form of the third loop of `map_back`, folded over an
arbitrary field list so the loop invariant can be stated by induction. -/
def mbExtractGo (fields : List String) (st : Dict × Dict) : Dict × Dict :=
  fields.foldl
    (fun st field =>
      match pyGet? st.2 field with
      | some v =>
          (if v.isNull then st.1 else pySet st.1 field v, pyDel st.2 field)
      | none => st)
    st

/-- Third loop of `map_back`: for each field of
`TOP_LEVEL_NON_ATTRIBUTES_FIELDS`, `value = attributes.pop(field, None)`
and, when the popped value is not `None`, `newdoc[field] = value`.
The state is the pair `(newdoc, attributes)`. -/
def mbExtract (st : Dict × Dict) : Dict × Dict :=
  mbExtractGo TOP_LEVEL_NON_ATTRIBUTES_FIELDS st

/-- Generic form of the fourth loop of `map_back`. -/
def mbPruneGo (fields : List String) (d : Dict) : Dict :=
  fields.foldl
    (fun d field =>
      if field ∈ TOP_LEVEL_NON_ATTRIBUTES_FIELDS then d else pyDel d field)
    d

/-- Fourth loop of `map_back`: `for field in list(newdoc.keys()): if
field not in TOP_LEVEL_NON_ATTRIBUTES_FIELDS: del newdoc[field]`. -/
def mbPrune (newdoc : Dict) : Dict :=
  mbPruneGo (newdoc.map Prod.fst) newdoc

/-- Embedding of `BaseResourceMapper.map_back`. `endpoint` is
`cls.ENDPOINT`, the entry-type identifier read from the resource class
schema. The Python `raise Exception("Will overwrite doc field!")` is
modelled as `.error`; the returned OPTIMADE document is `.ok`, with the
`attributes` sub-document stored under the `"attributes"` key as a
`Val.vdoc`. -/
def map_back (aliases : List (String × String)) (endpoint : String)
    (doc : Dict) : Except String Dict :=
  let newdoc := mbWorking aliases doc
  if (pyGet? newdoc "attributes").isSome then
    .error "Will overwrite doc field!"
  else
    let st := mbExtract (newdoc, newdoc)
    let pruned := mbPrune st.1
    .ok (pySet (pySet pruned "type" (Val.vstr endpoint)) "attributes"
          (Val.vdoc st.2))

/-!
## Lemmas about the Python dict model
-/

section PyDictLemmas

variable {α : Type}

theorem pyGet?_set_self (d : List (String × α)) (k : String) (v : α) :
    pyGet? (pySet d k v) k = some v := by
  induction d with
  | nil => simp [pySet, pyGet?]
  | cons kv d ih =>
      by_cases h : kv.1 = k
      · simp [pySet, pyGet?, h]
      · simp [pySet, pyGet?, h, ih]

theorem pySet_cons_eq (kv : String × α) (d : List (String × α)) (k : String)
    (v : α) (h : kv.1 = k) : pySet (kv :: d) k v = (k, v) :: d := by
  simp [pySet, h]

theorem pySet_cons_ne (kv : String × α) (d : List (String × α)) (k : String)
    (v : α) (h : ¬kv.1 = k) : pySet (kv :: d) k v = kv :: pySet d k v := by
  simp [pySet, h]

theorem pyGet?_set_ne (d : List (String × α)) (k k' : String) (v : α)
    (h : k' ≠ k) : pyGet? (pySet d k v) k' = pyGet? d k' := by
  induction d with
  | nil => simp [pySet, pyGet?, Ne.symm h]
  | cons kv d ih =>
      by_cases hk : kv.1 = k
      · have hkk' : ¬kv.1 = k' := by rw [hk]; exact Ne.symm h
        rw [pySet_cons_eq kv d k v hk]
        simp [pyGet?, Ne.symm h, hkk', hk]
      · rw [pySet_cons_ne kv d k v hk]
        by_cases hk' : kv.1 = k'
        · simp [pyGet?, hk']
        · simp [pyGet?, hk', ih]

theorem mem_keys_set (d : List (String × α)) (k k' : String) (v : α) :
    k' ∈ (pySet d k v).map Prod.fst ↔ k' ∈ d.map Prod.fst ∨ k' = k := by
  induction d with
  | nil => simp [pySet]
  | cons kv d ih =>
      by_cases h : kv.1 = k
      · rw [pySet_cons_eq kv d k v h]
        simp [← h]
        tauto
      · rw [pySet_cons_ne kv d k v h]
        simp [ih]
        tauto

theorem mem_keys_del (d : List (String × α)) (k k' : String) :
    k' ∈ (pyDel d k).map Prod.fst ↔ k' ∈ d.map Prod.fst ∧ k' ≠ k := by
  simp only [pyDel, List.mem_map, List.mem_filter]
  constructor
  · rintro ⟨p, ⟨hp, hne⟩, rfl⟩
    exact ⟨⟨p, hp, rfl⟩, by simpa using hne⟩
  · rintro ⟨⟨p, hp, rfl⟩, hne⟩
    exact ⟨p, ⟨hp, by simpa using hne⟩, rfl⟩

theorem pyGet?_isSome_iff (d : List (String × α)) (k : String) :
    (pyGet? d k).isSome ↔ k ∈ d.map Prod.fst := by
  induction d with
  | nil => simp [pyGet?]
  | cons kv d ih =>
      by_cases h : kv.1 = k
      · simp [pyGet?, h]
      · simp [pyGet?, h, ih, Ne.symm h]

theorem pyGet?_eq_none_iff (d : List (String × α)) (k : String) :
    pyGet? d k = none ↔ k ∉ d.map Prod.fst := by
  rw [← pyGet?_isSome_iff]
  cases pyGet? d k <;> simp

theorem pyDict_concat (l : List (String × α)) (p : String × α) :
    pyDict (l ++ [p]) = pySet (pyDict l) p.1 p.2 := by
  simp [pyDict, List.foldl_append]

/-- The central fact about Python `dict(pairs)` construction: looking a
key up in `dict(pairs)` finds the value of the *last* pair with that
first component, because later insertions overwrite earlier ones. -/
theorem pyDictGet?_eq_getLast? (l : List (String × α)) (k : String) :
    pyDictGet? l k = ((l.filter (fun p => p.1 = k)).getLast?).map Prod.snd := by
  induction l using List.reverseRecOn with
  | nil => simp [pyDictGet?, pyDict, pyGet?]
  | append_singleton l p ih =>
      rw [pyDictGet?, pyDict_concat]
      by_cases h : p.1 = k
      · rw [h, pyGet?_set_self]
        have hf : (l ++ [p]).filter (fun q => q.1 = k)
            = l.filter (fun q => q.1 = k) ++ [p] := by
          simp [List.filter_append, h]
        rw [hf, List.getLast?_concat]
        simp
      · rw [pyGet?_set_ne _ _ _ _ (fun hk => h hk.symm)]
        have hf : (l ++ [p]).filter (fun q => q.1 = k)
            = l.filter (fun q => q.1 = k) := by
          simp [List.filter_append, h]
        rw [hf, ← ih]
        rfl

theorem pyDictGet?_eq_none (l : List (String × α)) (k : String)
    (h : ∀ p ∈ l, p.1 ≠ k) : pyDictGet? l k = none := by
  rw [pyDictGet?_eq_getLast?]
  have : l.filter (fun p => p.1 = k) = [] := by
    rw [List.filter_eq_nil_iff]
    intro p hp
    simpa using h p hp
  simp [this]

end PyDictLemmas

/-!
## Lemmas about the model of `str.split(".")` and `".".join(...)`
-/

section PySplitLemmas

theorem splitDot_ne_nil (cs : List Char) : splitDot cs ≠ [] := by
  cases cs with
  | nil => simp [splitDot]
  | cons c cs =>
      simp only [splitDot]
      rcases h : splitDot cs with _ | ⟨w, ws⟩
      · simp
      · by_cases hc : c = '.' <;> simp [hc]

theorem splitDot_cons (c : Char) (cs : List Char) :
    splitDot (c :: cs) =
      match splitDot cs with
      | [] => [[]]
      | w :: ws => if c = '.' then [] :: w :: ws else (c :: w) :: ws := rfl

theorem splitDot_eq_single (cs : List Char) (h : '.' ∉ cs) :
    splitDot cs = [cs] := by
  induction cs with
  | nil => rfl
  | cons c cs ih =>
      have hc : c ≠ '.' := fun hc => h (hc ▸ List.mem_cons_self c cs)
      have hcs : '.' ∉ cs := fun hm => h (List.mem_cons_of_mem c hm)
      rw [splitDot_cons, ih hcs]
      simp [hc]

theorem splitDot_append (s t : List Char) (h : '.' ∉ s) :
    splitDot (s ++ '.' :: t) = s :: splitDot t := by
  induction s with
  | nil =>
      rw [List.nil_append, splitDot_cons]
      rcases ht : splitDot t with _ | ⟨w, ws⟩
      · exact absurd ht (splitDot_ne_nil t)
      · simp
  | cons c s ih =>
      have hc : c ≠ '.' := fun hc => h (hc ▸ List.mem_cons_self c s)
      have hs : '.' ∉ s := fun hm => h (List.mem_cons_of_mem c hm)
      rw [List.cons_append, splitDot_cons, ih hs]
      simp [hc]

theorem joinDot_cons (w : List Char) (ws : List (List Char)) (h : ws ≠ []) :
    joinDot (w :: ws) = w ++ '.' :: joinDot ws := by
  cases ws with
  | nil => exact absurd rfl h
  | cons w' ws' => rfl

theorem joinDot_splitDot (cs : List Char) : joinDot (splitDot cs) = cs := by
  induction cs with
  | nil => rfl
  | cons c cs ih =>
      rw [splitDot_cons]
      rcases h : splitDot cs with _ | ⟨w, ws⟩
      · exact absurd h (splitDot_ne_nil cs)
      · rw [h] at ih
        show joinDot (if c = '.' then [] :: w :: ws else (c :: w) :: ws) = c :: cs
        by_cases hc : c = '.'
        · subst hc
          rw [if_pos rfl, joinDot_cons _ _ (by simp)]
          simpa using ih
        · rw [if_neg hc]
          cases ws with
          | nil =>
              have hw : w = cs := ih
              simp [joinDot, hw]
          | cons w' ws' =>
              rw [joinDot_cons _ _ (by simp)] at ih
              rw [joinDot_cons _ _ (by simp), List.cons_append, ih]

theorem mk_data (s : String) : String.mk s.data = s := rfl

theorem pySplitDot_ne_nil (s : String) : pySplitDot s ≠ [] := by
  simp [pySplitDot, splitDot_ne_nil]

theorem pySplitDot_single (s : String) (h : '.' ∉ s.data) :
    pySplitDot s = [s] := by
  simp [pySplitDot, splitDot_eq_single s.data h, mk_data]

theorem pySplitDot_append (s t : String) (h : '.' ∉ s.data) :
    pySplitDot (s ++ "." ++ t) = s :: pySplitDot t := by
  have hdata : (s ++ "." ++ t).data = s.data ++ '.' :: t.data := by
    rw [String.data_append, String.data_append, List.append_assoc]
    rfl
  simp [pySplitDot, hdata, splitDot_append s.data t.data h, mk_data]

theorem pyJoinDot_pySplitDot (s : String) : pyJoinDot (pySplitDot s) = s := by
  simp only [pyJoinDot, pySplitDot, List.map_map]
  have : (String.data ∘ fun w => String.mk w) = id := rfl
  rw [this, List.map_id, joinDot_splitDot]

end PySplitLemmas

/-!
## Key-tracking lemmas for the loops of `map_back`
-/

section MapBackLemmas

theorem mem_keys_copy_foldl (reals : List String) (l : Dict) (acc : Dict)
    (k : String) :
    k ∈ (l.foldl
          (fun newdoc kv => if kv.1 ∈ reals then newdoc else pySet newdoc kv.1 kv.2)
          acc).map Prod.fst
      ↔ k ∈ acc.map Prod.fst ∨ (k ∈ l.map Prod.fst ∧ k ∉ reals) := by
  induction l generalizing acc with
  | nil => simp
  | cons kv l ih =>
      simp only [List.foldl_cons]
      by_cases h : kv.1 ∈ reals
      · rw [if_pos h, ih]
        by_cases hk : k = kv.1
        · subst hk
          simp [h]
        · simp [hk]
      · rw [if_neg h, ih, mem_keys_set]
        by_cases hk : k = kv.1
        · subst hk
          simp [h]
        · simp [hk]

theorem mem_keys_mbUnaliased (aliases : List (String × String)) (doc : Dict)
    (k : String) :
    k ∈ (mbUnaliased aliases doc).map Prod.fst
      ↔ k ∈ doc.map Prod.fst ∧ k ∉ aliases.map Prod.snd := by
  unfold mbUnaliased
  rw [mem_keys_copy_foldl]
  simp

theorem mem_keys_alias_foldl (doc : Dict) (aliases : List (String × String))
    (acc : Dict) (k : String) :
    k ∈ (aliases.foldl
          (fun newdoc p =>
            match pyGet? doc p.2 with
            | some v => pySet newdoc p.1 v
            | none => newdoc)
          acc).map Prod.fst
      ↔ k ∈ acc.map Prod.fst
          ∨ ∃ p, p ∈ aliases ∧ p.1 = k ∧ p.2 ∈ doc.map Prod.fst := by
  induction aliases generalizing acc with
  | nil => simp
  | cons q A ih =>
      rcases hg : pyGet? doc q.2 with _ | v
      · have hq : q.2 ∉ doc.map Prod.fst := (pyGet?_eq_none_iff doc q.2).mp hg
        simp only [List.foldl_cons, hg]
        rw [ih]
        constructor
        · rintro (ha | ⟨p, hp, hk, hm⟩)
          · exact Or.inl ha
          · exact Or.inr ⟨p, List.mem_cons_of_mem q hp, hk, hm⟩
        · rintro (ha | ⟨p, hp, hk, hm⟩)
          · exact Or.inl ha
          · rcases List.mem_cons.mp hp with rfl | hp'
            · exact absurd hm hq
            · exact Or.inr ⟨p, hp', hk, hm⟩
      · have hq : q.2 ∈ doc.map Prod.fst := by
          rw [← pyGet?_isSome_iff, hg]
          rfl
        simp only [List.foldl_cons, hg]
        rw [ih]
        constructor
        · rintro (ha | ⟨p, hp, hk, hm⟩)
          · rcases (mem_keys_set acc q.1 k v).mp ha with ha' | rfl
            · exact Or.inl ha'
            · exact Or.inr ⟨q, List.mem_cons_self q A, rfl, hq⟩
          · exact Or.inr ⟨p, List.mem_cons_of_mem q hp, hk, hm⟩
        · rintro (ha | ⟨p, hp, hk, hm⟩)
          · exact Or.inl ((mem_keys_set acc q.1 k v).mpr (Or.inl ha))
          · rcases List.mem_cons.mp hp with rfl | hp'
            · exact Or.inl ((mem_keys_set acc p.1 k v).mpr (Or.inr hk.symm))
            · exact Or.inr ⟨p, hp', hk, hm⟩

theorem mem_keys_mbWorking (aliases : List (String × String)) (doc : Dict)
    (k : String) :
    k ∈ (mbWorking aliases doc).map Prod.fst
      ↔ (k ∈ doc.map Prod.fst ∧ k ∉ aliases.map Prod.snd)
          ∨ ∃ p, p ∈ aliases ∧ p.1 = k ∧ p.2 ∈ doc.map Prod.fst := by
  unfold mbWorking
  rw [mem_keys_alias_foldl, mem_keys_mbUnaliased]

theorem mbExtractGo_keys (fields : List String) :
    ∀ st : Dict × Dict,
      (∀ k, k ∈ st.2.map Prod.fst → k ∈ st.1.map Prod.fst) →
      (∀ k, k ∈ (mbExtractGo fields st).1.map Prod.fst ↔ k ∈ st.1.map Prod.fst)
        ∧ (∀ k, k ∈ (mbExtractGo fields st).2.map Prod.fst ↔
            k ∈ st.2.map Prod.fst ∧ k ∉ fields) := by
  induction fields with
  | nil =>
      intro st _
      simp [mbExtractGo]
  | cons f fs ih =>
      intro st hsub
      rcases hg : pyGet? st.2 f with _ | v
      · have hf : f ∉ st.2.map Prod.fst := (pyGet?_eq_none_iff _ _).mp hg
        have hstep : mbExtractGo (f :: fs) st = mbExtractGo fs st := by
          unfold mbExtractGo
          simp only [List.foldl_cons, hg]
        obtain ⟨h1, h2⟩ := ih st hsub
        rw [hstep]
        refine ⟨h1, fun k => ?_⟩
        rw [h2 k]
        constructor
        · rintro ⟨hm, hnf⟩
          refine ⟨hm, fun hc => ?_⟩
          rcases List.mem_cons.mp hc with rfl | h'
          · exact hf hm
          · exact hnf h'
        · rintro ⟨hm, hnf⟩
          exact ⟨hm, fun h' => hnf (List.mem_cons_of_mem f h')⟩
      · have hf : f ∈ st.2.map Prod.fst := by
          rw [← pyGet?_isSome_iff, hg]
          rfl
        have hstep : mbExtractGo (f :: fs) st
            = mbExtractGo fs
                (if v.isNull then st.1 else pySet st.1 f v, pyDel st.2 f) := by
          unfold mbExtractGo
          simp only [List.foldl_cons, hg]
        have hsub' : ∀ k,
            k ∈ (pyDel st.2 f).map Prod.fst →
            k ∈ (if v.isNull then st.1 else pySet st.1 f v).map Prod.fst := by
          intro k hk
          obtain ⟨hk1, _⟩ := (mem_keys_del st.2 f k).mp hk
          have hk2 := hsub k hk1
          by_cases hn : v.isNull = true
          · simpa [hn] using hk2
          · rw [if_neg hn]
            exact (mem_keys_set st.1 f k v).mpr (Or.inl hk2)
        obtain ⟨h1, h2⟩ :=
          ih (if v.isNull then st.1 else pySet st.1 f v, pyDel st.2 f) hsub'
        rw [hstep]
        constructor
        · intro k
          rw [h1 k]
          by_cases hn : v.isNull = true
          · simp [hn]
          · rw [if_neg hn, mem_keys_set]
            constructor
            · rintro (hm | rfl)
              · exact hm
              · exact hsub k hf
            · exact Or.inl
        · intro k
          rw [h2 k]
          rw [mem_keys_del]
          constructor
          · rintro ⟨⟨hm, hne⟩, hnf⟩
            refine ⟨hm, fun hc => ?_⟩
            rcases List.mem_cons.mp hc with rfl | h'
            · exact absurd rfl hne
            · exact hnf h'
          · rintro ⟨hm, hnf⟩
            by_cases hk : k = f
            · exact absurd (by rw [hk]; exact List.mem_cons_self f fs) hnf
            · exact ⟨⟨hm, hk⟩, fun h' => hnf (List.mem_cons_of_mem f h')⟩

theorem mem_keys_mbPruneGo (fields : List String) :
    ∀ (d : Dict) (k : String),
      k ∈ (mbPruneGo fields d).map Prod.fst ↔
        k ∈ d.map Prod.fst ∧
          (k ∈ fields → k ∈ TOP_LEVEL_NON_ATTRIBUTES_FIELDS) := by
  induction fields with
  | nil =>
      intro d k
      simp [mbPruneGo]
  | cons f fs ih =>
      intro d k
      have hstep : mbPruneGo (f :: fs) d
          = mbPruneGo fs
              (if f ∈ TOP_LEVEL_NON_ATTRIBUTES_FIELDS then d else pyDel d f) := by
        unfold mbPruneGo
        rw [List.foldl_cons]
      rw [hstep]
      by_cases hf : f ∈ TOP_LEVEL_NON_ATTRIBUTES_FIELDS
      · rw [if_pos hf, ih]
        constructor
        · rintro ⟨hm, himp⟩
          refine ⟨hm, fun hc => ?_⟩
          rcases List.mem_cons.mp hc with rfl | h'
          · exact hf
          · exact himp h'
        · rintro ⟨hm, himp⟩
          exact ⟨hm, fun h' => himp (List.mem_cons_of_mem f h')⟩
      · rw [if_neg hf, ih, mem_keys_del]
        constructor
        · rintro ⟨⟨hm, hne⟩, himp⟩
          refine ⟨hm, fun hc => ?_⟩
          rcases List.mem_cons.mp hc with rfl | h'
          · exact absurd rfl hne
          · exact himp h'
        · rintro ⟨hm, himp⟩
          by_cases hk : k = f
          · exact absurd (himp (by rw [hk]; exact List.mem_cons_self f fs)) (by rw [hk]; exact hf)
          · exact ⟨⟨hm, hk⟩, fun h' => himp (List.mem_cons_of_mem f h')⟩

theorem mem_keys_mbPrune (d : Dict) (k : String) :
    k ∈ (mbPrune d).map Prod.fst ↔
      k ∈ d.map Prod.fst ∧ k ∈ TOP_LEVEL_NON_ATTRIBUTES_FIELDS := by
  unfold mbPrune
  rw [mem_keys_mbPruneGo]
  constructor
  · rintro ⟨hm, himp⟩
    exact ⟨hm, himp hm⟩
  · rintro ⟨hm, ht⟩
    exact ⟨hm, fun _ => ht⟩

end MapBackLemmas

/-!
## Characterisations of the two lookup directions
-/

section LookupLemmas

theorem get_backend_field_def (aliases : List (String × String))
    (f : String) :
    get_backend_field aliases f
      = match pyDictGet? aliases ((pySplitDot f).headD "") with
        | some aliased =>
            aliased ++ (if (pySplitDot f).length > 1
              then "." ++ pyJoinDot (pySplitDot f).tail else "")
        | none => f := rfl

/-- With a dot-free input, `get_backend_field` is exactly the last-wins
dict lookup over the alias pairs, defaulting to the input itself. -/
theorem get_backend_field_eq_getLast (aliases : List (String × String))
    (c : String) (hdot : '.' ∉ c.data) :
    get_backend_field aliases c
      = ((aliases.filter (fun p => p.1 = c)).getLast?.map Prod.snd).getD c := by
  rw [get_backend_field_def, pySplitDot_single c hdot]
  simp only [List.headD_cons, List.length_cons, List.length_nil]
  rw [pyDictGet?_eq_getLast? aliases c]
  generalize (aliases.filter (fun p => p.1 = c)).getLast? = o
  rcases o with _ | q
  · rfl
  · simp

/-- A name whose first dot-segment is not a canonical name of any alias
pair passes through `get_backend_field` unchanged. -/
theorem get_backend_field_not_found (aliases : List (String × String))
    (f : String) (h : ∀ p ∈ aliases, p.1 ≠ (pySplitDot f).headD "") :
    get_backend_field aliases f = f := by
  rw [get_backend_field_def, pyDictGet?_eq_none _ _ h]

/-- `get_backend_field` maps only the first dot-segment and re-appends
the remaining segments verbatim. -/
theorem get_backend_field_dotted (aliases : List (String × String))
    (s rest : String) (hdot : '.' ∉ s.data) :
    get_backend_field aliases (s ++ "." ++ rest)
      = get_backend_field aliases s ++ "." ++ rest := by
  rw [get_backend_field_def, get_backend_field_def,
    pySplitDot_append s rest hdot, pySplitDot_single s hdot]
  simp only [List.headD_cons, List.tail_cons, List.length_cons,
    List.length_nil]
  have hlen : (pySplitDot rest).length + 1 > 1 := by
    rcases hr : pySplitDot rest with _ | ⟨w, ws⟩
    · exact absurd hr (pySplitDot_ne_nil rest)
    · simp [hr]
  generalize pyDictGet? aliases s = o
  rcases o with _ | a
  · rfl
  · simp [hlen, pyJoinDot_pySplitDot, String.append_empty, String.append_assoc]

/-- A name that is not the backend name of any alias pair passes through
`get_optimade_field` unchanged. -/
theorem get_optimade_field_not_found (aliases : List (String × String))
    (b : String) (h : ∀ p ∈ aliases, p.2 ≠ b) :
    get_optimade_field aliases b = b := by
  unfold get_optimade_field
  rw [pyDictGet?_eq_none]
  · rfl
  · intro q hq
    rcases List.mem_map.mp hq with ⟨p, hp, rfl⟩
    exact h p hp

/-- If the input is the backend name of some alias pair, the result of
`get_optimade_field` is the canonical name of one of the pairs carrying
that backend name. -/
theorem get_optimade_field_mem (aliases : List (String × String))
    (b : String) (hb : b ∈ aliases.map Prod.snd) :
    ∃ p, p ∈ aliases ∧ p.2 = b ∧ p.1 = get_optimade_field aliases b := by
  have hrw : get_optimade_field aliases b
      = (Option.map Prod.snd
          (((aliases.map fun p => (p.2, p.1)).filter
              (fun q => q.1 = b)).getLast?)).getD b := by
    unfold get_optimade_field
    rw [pyDictGet?_eq_getLast?]
  rcases hL : ((aliases.map fun p => (p.2, p.1)).filter
      (fun q => q.1 = b)).getLast? with _ | q
  · exfalso
    rw [List.getLast?_eq_none_iff] at hL
    rcases List.mem_map.mp hb with ⟨p, hp, rfl⟩
    have hmem : (p.2, p.1) ∈ (aliases.map fun p => (p.2, p.1)).filter
        (fun q => q.1 = p.2) := by
      rw [List.mem_filter]
      exact ⟨List.mem_map.mpr ⟨p, hp, rfl⟩, by simp⟩
    rw [hL] at hmem
    exact List.not_mem_nil _ hmem
  · have hmem := List.mem_of_mem_getLast? hL
    rw [List.mem_filter] at hmem
    rcases List.mem_map.mp hmem.1 with ⟨p, hp, hpq⟩
    refine ⟨p, hp, ?_, ?_⟩
    · have h2 := hmem.2
      rw [← hpq] at h2
      simpa using h2
    · rw [hrw, hL, ← hpq]
      rfl

/-- `get_optimade_field` on a backend name that occurs in the table is
the canonical name of the *last* pair with that backend name. -/
theorem get_optimade_field_eq_getLast (aliases : List (String × String))
    (b : String) :
    get_optimade_field aliases b
      = ((aliases.filter (fun p => p.2 = b)).getLast?.map Prod.fst).getD b := by
  unfold get_optimade_field
  rw [pyDictGet?_eq_getLast?]
  have hf : (aliases.map fun p => (p.2, p.1)).filter (fun q => q.1 = b)
      = (aliases.filter (fun p => p.2 = b)).map fun p => (p.2, p.1) := by
    rw [List.filter_map]
    rfl
  rw [hf, List.getLast?_map, Option.map_map]
  rfl

end LookupLemmas

section NodupFilter

/-- In a pair list with unique first components (the items of a Python
dict), filtering on one first component yields exactly the one pair. -/
theorem filter_eq_singleton_of_nodup (l : List (String × String))
    (f v : String) (hnd : (l.map Prod.fst).Nodup) (hmem : (f, v) ∈ l) :
    l.filter (fun p => p.1 = f) = [(f, v)] := by
  induction l with
  | nil => cases hmem
  | cons q l ih =>
      rw [List.map_cons, List.nodup_cons] at hnd
      rcases List.mem_cons.mp hmem with hq | hm
      · rw [← hq] at hnd ⊢
        rw [List.filter_cons_of_pos (by simp)]
        have hrest : l.filter (fun p => p.1 = (f, v).1) = [] := by
          rw [List.filter_eq_nil_iff]
          intro p hp
          simp only [decide_eq_true_eq]
          intro hpe
          exact hnd.1 (hpe ▸ List.mem_map.mpr ⟨p, hp, rfl⟩)
        rw [hrest]
      · have hne : ¬(q.1 = f) := by
          intro hq1
          apply hnd.1
          rw [hq1]
          exact List.mem_map.mpr ⟨(f, v), hm, rfl⟩
        rw [List.filter_cons_of_neg (by simpa using hne)]
        exact ih hnd.2 hm

end NodupFilter

section MapBackUnfold

theorem map_back_def (aliases : List (String × String)) (endpoint : String)
    (doc : Dict) :
    map_back aliases endpoint doc
      = if (pyGet? (mbWorking aliases doc) "attributes").isSome then
          Except.error "Will overwrite doc field!"
        else
          Except.ok
            (pySet
              (pySet
                (mbPrune
                  (mbExtract (mbWorking aliases doc, mbWorking aliases doc)).1)
                "type" (Val.vstr endpoint))
              "attributes"
              (Val.vdoc
                (mbExtract (mbWorking aliases doc, mbWorking aliases doc)).2)) :=
  rfl

end MapBackUnfold

/-!
## The claims

Each claim of the specification is settled by one theorem below (with a
counterexample theorem when the claim as frozen fails on the code, and a
witness theorem when the main theorem carries hypotheses).
-/

/-- C1, counterexample: in the effective alias table built from the
deployment-configured alias `(a, b)` followed by the
implementation-declared alias `(a, c)`, the earliest pair for the
canonical name `a` is `(a, b)`, but `get_backend_field "a"` returns
`"c"`, the backend name of the *latest* pair — configuration does not
override code defaults. -/
theorem C1_counterexample :
    (all_aliases [] "exmpl" [] [("a", "b")] [("a", "c")]).filter
        (fun p => p.1 = "a") = [("a", "b"), ("a", "c")]
    ∧ get_backend_field (all_aliases [] "exmpl" [] [("a", "b")] [("a", "c")])
        "a" = "c"
    ∧ ("c" : String) ≠ "b" :=
  ⟨by decide, by decide, by decide⟩

/-- C1 (amended): for every dot-free canonical name that appears as the
first component of more than one pair in the effective alias table,
`get_backend_field` returns the backend name of the *latest* such pair in
concatenation order — later entries take precedence because the lookup
dict is built by insertion in order with overwrites, so
mapper-implementation `ALIASES` override deployment configuration. -/
theorem C1_theorem (configProviderFields : List String) (prefix_ : String)
    (PROVIDER_FIELDS : List String)
    (configAliases ALIASES : List (String × String)) (c : String)
    (hdot : '.' ∉ c.data)
    (hdup : 1 < ((all_aliases configProviderFields prefix_ PROVIDER_FIELDS
        configAliases ALIASES).filter (fun p => p.1 = c)).length) :
    ((all_aliases configProviderFields prefix_ PROVIDER_FIELDS configAliases
        ALIASES).filter (fun p => p.1 = c)).getLast?.map Prod.snd
      = some (get_backend_field (all_aliases configProviderFields prefix_
          PROVIDER_FIELDS configAliases ALIASES) c) := by
  rw [get_backend_field_eq_getLast _ c hdot]
  generalize hL : ((all_aliases configProviderFields prefix_ PROVIDER_FIELDS
      configAliases ALIASES).filter (fun p => p.1 = c)).getLast? = o
  rcases o with _ | q
  · rw [List.getLast?_eq_none_iff] at hL
    rw [hL] at hdup
    simp at hdup
  · simp

/-- C1, witness: the amended precedence theorem applied to the concrete
colliding table of the counterexample. -/
theorem C1_witness :
    '.' ∉ ("a" : String).data
    ∧ 1 < ((all_aliases [] "exmpl" [] [("a", "b")] [("a", "c")]).filter
        (fun p => p.1 = "a")).length
    ∧ ((all_aliases [] "exmpl" [] [("a", "b")] [("a", "c")]).filter
          (fun p => p.1 = "a")).getLast?.map Prod.snd
        = some (get_backend_field
            (all_aliases [] "exmpl" [] [("a", "b")] [("a", "c")]) "a") :=
  ⟨by decide, by decide,
    C1_theorem [] "exmpl" [] [("a", "b")] [("a", "c")] "a" (by decide)
      (by decide)⟩

/-- C6: for every backend name that appears as the second component of
more than one pair in the effective alias table, `get_optimade_field`
returns the canonical name of the *last* such pair in concatenation
order, because the reverse map is built by inverting the pairs and later
entries overwrite earlier ones. -/
theorem C6_theorem (configProviderFields : List String) (prefix_ : String)
    (PROVIDER_FIELDS : List String)
    (configAliases ALIASES : List (String × String)) (b : String)
    (hdup : 1 < ((all_aliases configProviderFields prefix_ PROVIDER_FIELDS
        configAliases ALIASES).filter (fun p => p.2 = b)).length) :
    ((all_aliases configProviderFields prefix_ PROVIDER_FIELDS configAliases
        ALIASES).filter (fun p => p.2 = b)).getLast?.map Prod.fst
      = some (get_optimade_field (all_aliases configProviderFields prefix_
          PROVIDER_FIELDS configAliases ALIASES) b) := by
  rw [get_optimade_field_eq_getLast]
  generalize hL : ((all_aliases configProviderFields prefix_ PROVIDER_FIELDS
      configAliases ALIASES).filter (fun p => p.2 = b)).getLast? = o
  rcases o with _ | q
  · rw [List.getLast?_eq_none_iff] at hL
    rw [hL] at hdup
    simp at hdup
  · simp

/-- C6, witness: with config alias `(x, b)` followed by implementation
alias `(y, b)`, the reverse lookup of `b` yields `y`, the canonical name
of the last pair. -/
theorem C6_witness :
    1 < ((all_aliases [] "exmpl" [] [("x", "b")] [("y", "b")]).filter
        (fun p => p.2 = "b")).length
    ∧ ((all_aliases [] "exmpl" [] [("x", "b")] [("y", "b")]).filter
          (fun p => p.2 = "b")).getLast?.map Prod.fst
        = some (get_optimade_field
            (all_aliases [] "exmpl" [] [("x", "b")] [("y", "b")]) "b") :=
  ⟨by decide, C6_theorem [] "exmpl" [] [("x", "b")] [("y", "b")] "b" (by decide)⟩

/-- C7, counterexample: the claim as frozen says that for *every* name
`c` appearing as the canonical (first) component of no pair,
`get_backend_field c = c`. The name `species.mass` appears as the first
component of no pair in the table `[(species, kinds)]` (first conjunct),
yet `get_backend_field` returns `kinds.mass` (second conjunct), which
differs from the input (third conjunct): the lookup acts on the first
dot-segment (`entries.py` line 196, `optimade_field.split(".")`), so the
pass-through identity as universally quantified fails on dotted names. -/
theorem C7_counterexample :
    (∀ p ∈ ([("species", "kinds")] : List (String × String)),
      p.1 ≠ "species.mass")
    ∧ get_backend_field [("species", "kinds")] "species.mass" = "kinds.mass"
    ∧ ("kinds.mass" : String) ≠ "species.mass" :=
  ⟨by decide, by decide, by decide⟩

/-- C7 (amended): both lookups are total and default to pass-through:
for every name whose *first dot-segment* appears as the canonical
component of no pair, `get_backend_field` is the identity, and for every
name that appears as the backend component of no pair,
`get_optimade_field` is the identity. The amendment changes only what
the counterexample forces: for a dot-free name `c`, `pySplitDot c = [c]`
(`pySplitDot_single`), so the hypothesis `hc` coincides with the frozen
claim's "appears as the canonical component of no pair", and the reverse
half `hb` is the frozen claim verbatim. Totality and the absence of any
raising path are structural: both lookups are plain total functions
`String → String` whose only operations are dict `get` with a default
(`entries.py` lines 196-200 and 246-248). -/
theorem C7_theorem (aliases : List (String × String)) (c b : String)
    (hc : ∀ p ∈ aliases, p.1 ≠ (pySplitDot c).headD "")
    (hb : ∀ p ∈ aliases, p.2 ≠ b) :
    get_backend_field aliases c = c ∧ get_optimade_field aliases b = b :=
  ⟨get_backend_field_not_found aliases c hc,
   get_optimade_field_not_found aliases b hb⟩

/-- C7, witness: the amended pass-through theorem applied at the
concrete name `nsites` (which maps through neither direction of the
table `[(elements, custom_elements_field)]`), with both hypotheses
discharged by `decide`. -/
theorem C7_witness :
    (∀ p ∈ ([("elements", "custom_elements_field")] : List (String × String)),
      p.1 ≠ (pySplitDot "nsites").headD "")
    ∧ (∀ p ∈ ([("elements", "custom_elements_field")] : List (String × String)),
      p.2 ≠ "nsites")
    ∧ get_backend_field [("elements", "custom_elements_field")] "nsites"
        = "nsites"
    ∧ get_optimade_field [("elements", "custom_elements_field")] "nsites"
        = "nsites" := by
  refine ⟨by decide, by decide, ?_, ?_⟩
  · exact (C7_theorem [("elements", "custom_elements_field")] "nsites" "nsites"
      (by decide) (by decide)).1
  · exact (C7_theorem [("elements", "custom_elements_field")] "nsites" "nsites"
      (by decide) (by decide)).2

/-- C4, counterexample: `get_optimade_field` performs no dotted-path
splitting: with the alias `(chemical_formula_anonymous, formula_anon)`,
the input `formula_anon.x` passes through unchanged instead of having its
first segment mapped, so the reverse half of the claim fails. -/
theorem C4_counterexample :
    get_optimade_field [("chemical_formula_anonymous", "formula_anon")]
        ("formula_anon" ++ "." ++ "x") = "formula_anon.x"
    ∧ get_optimade_field [("chemical_formula_anonymous", "formula_anon")]
          "formula_anon" ++ "." ++ "x" = "chemical_formula_anonymous.x"
    ∧ ("formula_anon.x" : String) ≠ "chemical_formula_anonymous.x" :=
  ⟨by decide, by decide, by decide⟩

/-- C4 (amended): `get_backend_field` applies the lookup only to the
first dot-segment and rejoins the remaining segments verbatim;
`get_optimade_field` does no dotted-path handling at all — it looks up
the entire input string, so a dotted input that is not itself a backend
name passes through unchanged even when its first segment is one. -/
theorem C4_theorem (aliases : List (String × String)) (s rest : String)
    (hdot : '.' ∉ s.data) (_hrest : rest ≠ "") :
    get_backend_field aliases (s ++ "." ++ rest)
        = get_backend_field aliases s ++ "." ++ rest
    ∧ ((∀ p ∈ aliases, p.2 ≠ s ++ "." ++ rest) →
        get_optimade_field aliases (s ++ "." ++ rest) = s ++ "." ++ rest) :=
  ⟨get_backend_field_dotted aliases s rest hdot,
   fun h => get_optimade_field_not_found aliases _ h⟩

/-- C4, witness: the dotted-path behaviour at the concrete input
`species.mass` with the alias `(species, kinds)`. -/
theorem C4_witness :
    '.' ∉ ("species" : String).data
    ∧ ("mass" : String) ≠ ""
    ∧ (get_backend_field [("species", "kinds")] ("species" ++ "." ++ "mass")
          = get_backend_field [("species", "kinds")] "species" ++ "." ++ "mass"
        ∧ ((∀ p ∈ ([("species", "kinds")] : List (String × String)),
              p.2 ≠ "species" ++ "." ++ "mass") →
            get_optimade_field [("species", "kinds")]
                ("species" ++ "." ++ "mass") = "species" ++ "." ++ "mass")) :=
  ⟨by decide, by decide,
    C4_theorem [("species", "kinds")] "species" "mass" (by decide) (by decide)⟩

/-- C2, counterexample: reshaping the backend document
`{"_id": "x1", "custom_elements_field": ["Na","Cl"], "formula_anon":
"AB", "id": "x1"}` with the alias `(elements, custom_elements_field)`
does not drop the raw store identifier: `_id` is removed from the top
level but survives *inside* `attributes`, so the claimed output (with
`_id` appearing nowhere) is wrong. -/
theorem C2_counterexample :
    map_back [("elements", "custom_elements_field")] "structures"
        [("_id", Val.vstr "x1"),
         ("custom_elements_field", Val.vlist ["Na", "Cl"]),
         ("formula_anon", Val.vstr "AB"), ("id", Val.vstr "x1")]
      = Except.ok [("id", Val.vstr "x1"), ("type", Val.vstr "structures"),
          ("attributes", Val.vdoc [("_id", Val.vstr "x1"),
            ("formula_anon", Val.vstr "AB"),
            ("elements", Val.vlist ["Na", "Cl"])])]
    ∧ "_id" ∈ ([("_id", Val.vstr "x1"), ("formula_anon", Val.vstr "AB"),
        ("elements", Val.vlist ["Na", "Cl"])] : Dict).map Prod.fst :=
  ⟨rfl, by decide⟩

/-- C2 (amended): the example document reshapes to
`{"id": "x1", "type": "structures", "attributes": {"_id": "x1",
"formula_anon": "AB", "elements": ["Na","Cl"]}}` — the raw store
identifier key `_id` is dropped from the top level but retained, with
its value, inside `attributes`. -/
theorem C2_theorem :
    map_back [("elements", "custom_elements_field")] "structures"
        [("_id", Val.vstr "x1"),
         ("custom_elements_field", Val.vlist ["Na", "Cl"]),
         ("formula_anon", Val.vstr "AB"), ("id", Val.vstr "x1")]
      = Except.ok [("id", Val.vstr "x1"), ("type", Val.vstr "structures"),
          ("attributes", Val.vdoc [("_id", Val.vstr "x1"),
            ("formula_anon", Val.vstr "AB"),
            ("elements", Val.vlist ["Na", "Cl"])])] := rfl

/-- C3, counterexample: a document with a top-level `attributes` key does
*not* always make `map_back` raise: if the alias table maps some
canonical name to the backend name `attributes` (here `(x, attributes)`),
the key is renamed during aliasing and the conflict check — which runs on
the already-renamed working document — passes. -/
theorem C3_counterexample :
    map_back [("x", "attributes")] "structures" [("attributes", Val.vstr "v")]
      = Except.ok [("type", Val.vstr "structures"),
          ("attributes", Val.vdoc [("x", Val.vstr "v")])] := rfl

/-- C3 (amended): for every backend document whose top-level keys include
`attributes`, and every effective alias table in which `attributes` does
not appear as the backend (second) component of any pair, `map_back`
raises the mapping-invariant violation, regardless of the document's
other keys and values. -/
theorem C3_theorem (aliases : List (String × String)) (endpoint : String)
    (doc : Dict) (hdoc : "attributes" ∈ doc.map Prod.fst)
    (haliases : ∀ p ∈ aliases, p.2 ≠ "attributes") :
    map_back aliases endpoint doc = Except.error "Will overwrite doc field!" := by
  have hmem : "attributes" ∈ (mbWorking aliases doc).map Prod.fst :=
    (mem_keys_mbWorking aliases doc "attributes").mpr
      (Or.inl ⟨hdoc, fun hc => by
        rcases List.mem_map.mp hc with ⟨p, hp, hpe⟩
        exact haliases p hp hpe⟩)
  have hs : (pyGet? (mbWorking aliases doc) "attributes").isSome :=
    (pyGet?_isSome_iff _ _).mpr hmem
  rw [map_back_def, if_pos hs]

/-- C3, witness: the amended raise condition at a concrete document and
table. -/
theorem C3_witness :
    "attributes" ∈ ([("attributes", Val.vstr "v"),
        ("formula_anon", Val.vstr "AB")] : Dict).map Prod.fst
    ∧ (∀ p ∈ ([("elements", "custom_elements_field")] : List (String × String)),
        p.2 ≠ "attributes")
    ∧ map_back [("elements", "custom_elements_field")] "structures"
        [("attributes", Val.vstr "v"), ("formula_anon", Val.vstr "AB")]
      = Except.error "Will overwrite doc field!" :=
  ⟨by decide, by decide,
    C3_theorem [("elements", "custom_elements_field")] "structures"
      [("attributes", Val.vstr "v"), ("formula_anon", Val.vstr "AB")]
      (by decide) (by decide)⟩

/-- C8: `length_alias_for` is the last-wins dict lookup over
`LENGTH_ALIASES ++ config length aliases`; a field declared in both
tables resolves to the deployment-configured length field (config takes
priority), a field in neither resolves to `none`, and the alias table
plays no part — `length_alias_for` does not consult it at all. -/
theorem C8_theorem (LENGTH_ALIASES configLengthAliases : List (String × String))
    (field lenImpl lenConfig : String)
    (hnd : (configLengthAliases.map Prod.fst).Nodup) :
    ((field, lenImpl) ∈ LENGTH_ALIASES →
      (field, lenConfig) ∈ configLengthAliases →
      length_alias_for LENGTH_ALIASES configLengthAliases field = some lenConfig)
    ∧ ((∀ p ∈ LENGTH_ALIASES, p.1 ≠ field) →
        (∀ p ∈ configLengthAliases, p.1 ≠ field) →
        length_alias_for LENGTH_ALIASES configLengthAliases field = none) := by
  constructor
  · intro h1 h2
    unfold length_alias_for all_length_aliases
    rw [pyDictGet?_eq_getLast?, List.filter_append,
      filter_eq_singleton_of_nodup configLengthAliases field lenConfig hnd h2,
      List.getLast?_concat]
    rfl
  · intro h1 h2
    unfold length_alias_for all_length_aliases
    rw [pyDictGet?_eq_none]
    intro p hp
    rcases List.mem_append.mp hp with h | h
    · exact h1 p h
    · exact h2 p h

/-- C8, witness: with implementation pair `(elements, nelements_db)` and
config pair `(elements, nelements)`, the config value wins; an absent
field resolves to `none`. -/
theorem C8_witness :
    length_alias_for [("elements", "nelements_db")] [("elements", "nelements")]
        "elements" = some "nelements"
    ∧ length_alias_for [("elements", "nelements_db")] [("elements", "nelements")]
        "nsites" = none :=
  ⟨(C8_theorem [("elements", "nelements_db")] [("elements", "nelements")]
      "elements" "nelements_db" "nelements" (by decide)).1 (by decide) (by decide),
   (C8_theorem [("elements", "nelements_db")] [("elements", "nelements")]
      "nsites" "x" "y" (by decide)).2 (by decide) (by decide)⟩

/-- C9: whenever `map_back` succeeds, the returned document's top-level
`type` field equals the mapper's bound entry-type identifier (the
`ENDPOINT` argument), regardless of any incoming `type` value, which is
overwritten. -/
theorem C9_theorem (aliases : List (String × String)) (endpoint : String)
    (doc res : Dict) (h : map_back aliases endpoint doc = Except.ok res) :
    pyGet? res "type" = some (Val.vstr endpoint) := by
  rw [map_back_def] at h
  by_cases hg : (pyGet? (mbWorking aliases doc) "attributes").isSome
  · rw [if_pos hg] at h
    cases h
  · rw [if_neg hg] at h
    injection h with h'
    rw [← h', pyGet?_set_ne _ _ _ _ (by decide), pyGet?_set_self]

/-- C9, witness: the type-overwrite theorem at a concrete document that
arrives with a stale `type` value. -/
theorem C9_witness :
    map_back [] "structures" [("id", Val.vstr "x"), ("type", Val.vstr "stale")]
      = Except.ok [("id", Val.vstr "x"), ("type", Val.vstr "structures"),
          ("attributes", Val.vdoc [])]
    ∧ pyGet? [("id", Val.vstr "x"), ("type", Val.vstr "structures"),
        ("attributes", Val.vdoc [])] "type" = some (Val.vstr "structures") :=
  ⟨rfl,
    C9_theorem [] "structures" [("id", Val.vstr "x"), ("type", Val.vstr "stale")]
      [("id", Val.vstr "x"), ("type", Val.vstr "structures"),
        ("attributes", Val.vdoc [])] rfl⟩

/-- C5, counterexample: reshaping the empty backend document (which has
no pre-existing `attributes` key) yields a document whose top-level key
set is `{type, attributes}` — the mandatory `id` key of the claimed
partition is absent, so the key set is not
`{"id","type","attributes"} ∪ (present optional fields)`. -/
theorem C5_counterexample :
    map_back [] "structures" []
      = Except.ok [("type", Val.vstr "structures"), ("attributes", Val.vdoc [])]
    ∧ "id" ∉ ([("type", Val.vstr "structures"),
        ("attributes", Val.vdoc [])] : Dict).map Prod.fst :=
  ⟨rfl, by decide⟩

/-- C5 (amended): for every backend document without a pre-existing
top-level `attributes` key, reshaped under an alias table in which
`attributes` is not the canonical name of any pair, `map_back` succeeds
and returns a document whose top-level key set is exactly
`{type, attributes}` together with those fields of
`{id, type, relationships, links}` that survive the aliasing step
(present as an unaliased input key, or the canonical component of a pair
whose backend name is an input key); and every input key whose canonical
name is outside the fixed top-level set appears, under its canonical
name, inside the `attributes` sub-mapping. -/
theorem C5_theorem (aliases : List (String × String)) (endpoint : String)
    (doc : Dict) (hno : "attributes" ∉ doc.map Prod.fst)
    (haliases : ∀ p ∈ aliases, p.1 ≠ "attributes") :
    ∃ res attrs,
      map_back aliases endpoint doc = Except.ok res
      ∧ pyGet? res "attributes" = some (Val.vdoc attrs)
      ∧ (∀ k, k ∈ res.map Prod.fst ↔
          (k = "type" ∨ k = "attributes"
            ∨ (k ∈ TOP_LEVEL_NON_ATTRIBUTES_FIELDS
                ∧ ((k ∈ doc.map Prod.fst ∧ k ∉ aliases.map Prod.snd)
                    ∨ ∃ p, p ∈ aliases ∧ p.1 = k ∧ p.2 ∈ doc.map Prod.fst))))
      ∧ (∀ k, k ∈ doc.map Prod.fst →
          get_optimade_field aliases k ∉ TOP_LEVEL_NON_ATTRIBUTES_FIELDS →
          get_optimade_field aliases k ∈ attrs.map Prod.fst) := by
  have hnw : "attributes" ∉ (mbWorking aliases doc).map Prod.fst := by
    rw [mem_keys_mbWorking]
    rintro (⟨h1, _⟩ | ⟨p, hp, hp1, _⟩)
    · exact hno h1
    · exact haliases p hp hp1
  have hguard : pyGet? (mbWorking aliases doc) "attributes" = none :=
    (pyGet?_eq_none_iff _ _).mpr hnw
  obtain ⟨hE1, hE2⟩ := mbExtractGo_keys TOP_LEVEL_NON_ATTRIBUTES_FIELDS
      (mbWorking aliases doc, mbWorking aliases doc) (fun _ hk => hk)
  have hE1' : ∀ k,
      k ∈ (mbExtract (mbWorking aliases doc, mbWorking aliases doc)).1.map
            Prod.fst
        ↔ k ∈ (mbWorking aliases doc).map Prod.fst := hE1
  have hE2' : ∀ k,
      k ∈ (mbExtract (mbWorking aliases doc, mbWorking aliases doc)).2.map
            Prod.fst
        ↔ k ∈ (mbWorking aliases doc).map Prod.fst
            ∧ k ∉ TOP_LEVEL_NON_ATTRIBUTES_FIELDS := hE2
  refine ⟨pySet (pySet (mbPrune (mbExtract (mbWorking aliases doc,
      mbWorking aliases doc)).1) "type" (Val.vstr endpoint)) "attributes"
      (Val.vdoc (mbExtract (mbWorking aliases doc, mbWorking aliases doc)).2),
    (mbExtract (mbWorking aliases doc, mbWorking aliases doc)).2,
    ?_, ?_, ?_, ?_⟩
  · rw [map_back_def, hguard]
    rfl
  · exact pyGet?_set_self _ _ _
  · intro k
    rw [mem_keys_set, mem_keys_set, mem_keys_mbPrune, hE1' k,
      mem_keys_mbWorking]
    constructor
    · rintro ((⟨hbig, ht⟩ | hk) | hk)
      · exact Or.inr (Or.inr ⟨ht, hbig⟩)
      · exact Or.inl hk
      · exact Or.inr (Or.inl hk)
    · rintro (hk | hk | ⟨ht, hbig⟩)
      · exact Or.inl (Or.inr hk)
      · exact Or.inr hk
      · exact Or.inl (Or.inl ⟨hbig, ht⟩)
  · intro k hk hnot
    rw [hE2']
    refine ⟨?_, hnot⟩
    by_cases hbk : k ∈ aliases.map Prod.snd
    · obtain ⟨p, hp, hp2, hp1⟩ := get_optimade_field_mem aliases k hbk
      rw [mem_keys_mbWorking]
      refine Or.inr ⟨p, hp, hp1, ?_⟩
      rw [hp2]
      exact hk
    · have hid : get_optimade_field aliases k = k :=
        get_optimade_field_not_found aliases k
          (fun p hp hpe => hbk (List.mem_map.mpr ⟨p, hp, hpe⟩))
      rw [hid, mem_keys_mbWorking]
      exact Or.inl ⟨hk, hbk⟩

/-- C5, witness: the amended partition theorem applied to a concrete
document and table. -/
theorem C5_witness :
    "attributes" ∉ ([("id", Val.vstr "x1"),
        ("custom_elements_field", Val.vlist ["Na", "Cl"])] : Dict).map Prod.fst
    ∧ (∀ p ∈ ([("elements", "custom_elements_field")] : List (String × String)),
        p.1 ≠ "attributes")
    ∧ ∃ res attrs,
        map_back [("elements", "custom_elements_field")] "structures"
            [("id", Val.vstr "x1"),
             ("custom_elements_field", Val.vlist ["Na", "Cl"])]
          = Except.ok res
        ∧ pyGet? res "attributes" = some (Val.vdoc attrs)
        ∧ (∀ k, k ∈ res.map Prod.fst ↔
            (k = "type" ∨ k = "attributes"
              ∨ (k ∈ TOP_LEVEL_NON_ATTRIBUTES_FIELDS
                  ∧ ((k ∈ ([("id", Val.vstr "x1"),
                        ("custom_elements_field", Val.vlist ["Na", "Cl"])] :
                          Dict).map Prod.fst
                      ∧ k ∉ ([("elements", "custom_elements_field")] :
                          List (String × String)).map Prod.snd)
                    ∨ ∃ p, p ∈ ([("elements", "custom_elements_field")] :
                          List (String × String))
                        ∧ p.1 = k
                        ∧ p.2 ∈ ([("id", Val.vstr "x1"),
                            ("custom_elements_field", Val.vlist ["Na", "Cl"])] :
                              Dict).map Prod.fst))))
        ∧ (∀ k, k ∈ ([("id", Val.vstr "x1"),
              ("custom_elements_field", Val.vlist ["Na", "Cl"])] :
                Dict).map Prod.fst →
            get_optimade_field [("elements", "custom_elements_field")] k
              ∉ TOP_LEVEL_NON_ATTRIBUTES_FIELDS →
            get_optimade_field [("elements", "custom_elements_field")] k
              ∈ attrs.map Prod.fst) :=
  ⟨by decide, by decide,
    C5_theorem [("elements", "custom_elements_field")] "structures"
      [("id", Val.vstr "x1"), ("custom_elements_field", Val.vlist ["Na", "Cl"])]
      (by decide) (by decide)⟩

/-- C10: the deprecated wrappers are observably equivalent to their
replacements: `alias_for` returns exactly `get_backend_field` and
`alias_of` returns exactly `get_optimade_field` for every field and
every alias table (the Python wrappers only add a `DeprecationWarning`
side effect and delegate unchanged). -/
theorem C10_theorem (aliases : List (String × String)) (field : String) :
    alias_for aliases field = get_backend_field aliases field
    ∧ alias_of aliases field = get_optimade_field aliases field :=
  ⟨rfl, rfl⟩

end Optimade
